import Mathlib

/-!
Verification of the `resettable` crate: a generic wrapper
`ResettableWrapper<T> { inner: T, stash: Option<T> }` with copy-on-first-write
checkpointing.  The Rust operations are embedded as pure Lean functions over an
explicit state; mutable access through `DerefMut` is modelled as a state
transformer that first performs the conditional stash (exactly as the source's
`deref_mut` does before handing out the mutable reference) and then applies the
caller's mutation to the live value.
-/

namespace Resettable

/-- The wrapper from `src/lib.rs`: `inner` is the live value, `stash` the
optional checkpoint taken on the first mutable access of a dirty period. -/
structure ResettableWrapper (T : Type) where
  inner : T
  stash : Option T
  deriving DecidableEq, Repr

/-- `ResettableWrapper::new`: wrap a value with no stash. -/
def ResettableWrapper.new {T : Type} (inner : T) : ResettableWrapper T :=
  { inner := inner, stash := none }

/-- `Deref::deref`: read-only access returns the live value and does not
touch the state. -/
def deref {T : Type} (w : ResettableWrapper T) : T :=
  w.inner

/-- The state effect of `DerefMut::deref_mut`: if the stash is empty, clone
the live value into it; then the mutable reference to `inner` is handed out. -/
def deref_mut {T : Type} (w : ResettableWrapper T) : ResettableWrapper T :=
  if w.stash.isNone then { w with stash := some w.inner } else w

/-- Number of `clone` calls performed by one `deref_mut`: the source clones
exactly when `stash.is_none()`. -/
def deref_mut_clones {T : Type} (w : ResettableWrapper T) : Nat :=
  if w.stash.isNone then 1 else 0

/-- One mutation applied through mutable access: `deref_mut` runs first
(conditional stash), then the caller mutates the live value in place. -/
def writeWith {T : Type} (f : T → T) (w : ResettableWrapper T) : ResettableWrapper T :=
  let w' := deref_mut w
  { w' with inner := f w'.inner }

/-- `ResettableWrapper::into_inner`: consume the wrapper, return the live
value, discarding the stash. -/
def into_inner {T : Type} (w : ResettableWrapper T) : T :=
  w.inner

/-- `ResettableWrapper::reset_inner`: consume the wrapper, return the stash
if present, otherwise the live value. -/
def reset_inner {T : Type} (w : ResettableWrapper T) : T :=
  match w.stash with
  | some stash => stash
  | none => w.inner

/-- `<ResettableWrapper as Resettable>::reset`: re-wrap `reset_inner`. -/
def ResettableWrapper.reset {T : Type} (w : ResettableWrapper T) : ResettableWrapper T :=
  ResettableWrapper.new (reset_inner w)

/-- `impl From<T>`: same as `new`. -/
def fromValue {T : Type} (inner : T) : ResettableWrapper T :=
  ResettableWrapper.new inner

/-- `impl Serialize`: the external representation of the wrapper is exactly
the external representation of `inner`; the stash never appears in it. -/
def serializeW {T : Type} (w : ResettableWrapper T) : T :=
  w.inner

/-- `impl Deserialize`: deserialize the value and wrap it with
`ResettableWrapper::new`, i.e. with an empty stash. -/
def deserializeW {T : Type} (t : T) : ResettableWrapper T :=
  ResettableWrapper.new t

/-- `impl Debug`: formatting delegates to `inner`'s formatter; `fmtT` stands
for the `Debug` implementation of the value type. -/
def debugFmt {T : Type} (fmtT : T → String) (w : ResettableWrapper T) : String :=
  fmtT w.inner

/-- The derived `PartialEq`: field-by-field comparison of `inner` and
`stash`. -/
def wrapperEq {T : Type} [DecidableEq T] (a b : ResettableWrapper T) : Bool :=
  decide (a.inner = b.inner) && decide (a.stash = b.stash)

/-- The operations a client can perform on a wrapper it owns. -/
inductive Op (T : Type) where
  | read
  | write (f : T → T)
  | reset

/-- One client operation acting on the wrapper state. -/
def step {T : Type} (w : ResettableWrapper T) : Op T → ResettableWrapper T
  | Op.read => w
  | Op.write f => writeWith f w
  | Op.reset => ResettableWrapper.reset w

/-- Run a sequence of client operations, left to right. -/
def runOps {T : Type} (w : ResettableWrapper T) (ops : List (Op T)) : ResettableWrapper T :=
  ops.foldl step w

/-- `step`, instrumented with the number of `clone` calls it performs:
only `deref_mut` (inside a write) ever clones. -/
def stepC {T : Type} (p : ResettableWrapper T × Nat) (op : Op T) : ResettableWrapper T × Nat :=
  match op with
  | Op.read => p
  | Op.write f => (writeWith f p.1, p.2 + deref_mut_clones p.1)
  | Op.reset => (ResettableWrapper.reset p.1, p.2)

/-- Run a sequence of operations while counting `clone` calls. -/
def runOpsC {T : Type} (p : ResettableWrapper T × Nat) (ops : List (Op T)) :
    ResettableWrapper T × Nat :=
  ops.foldl stepC p

/-- Apply a sequence of mutations, each through mutable access. -/
def applyMuts {T : Type} (ms : List (T → T)) (w : ResettableWrapper T) : ResettableWrapper T :=
  runOps w (ms.map Op.write)

/-- Number of `clone` calls performed while applying a sequence of mutations. -/
def clonesOfMuts {T : Type} (ms : List (T → T)) (w : ResettableWrapper T) : Nat :=
  (runOpsC (w, 0) (ms.map Op.write)).2

/-- Whether an operation is a reset. -/
def isResetOp {T : Type} : Op T → Bool
  | Op.reset => true
  | _ => false

/-- Whether an operation is a write (mutable access). -/
def isWriteOp {T : Type} : Op T → Bool
  | Op.write _ => true
  | _ => false

/-- A trace containing no reset. -/
def resetFree {T : Type} (ops : List (Op T)) : Bool :=
  ops.all (fun op => !(isResetOp op))

/-- Scan a reversed trace: a write occurs before any reset is met. -/
def writeSinceResetRev {T : Type} : List (Op T) → Bool
  | [] => false
  | Op.read :: rest => writeSinceResetRev rest
  | Op.write _ :: _ => true
  | Op.reset :: _ => false

/-- At least one mutable access occurred since construction or since the
last reset in the trace. -/
def writeSinceReset {T : Type} (ops : List (Op T)) : Bool :=
  writeSinceResetRev ops.reverse

/-- The composite type from the crate's test: two resettable fields. -/
structure Complex (A B : Type) where
  first : ResettableWrapper A
  second : ResettableWrapper B
  deriving DecidableEq, Repr

/-- `impl Resettable for Complex`: a new instance built from each field's
own `reset()`. -/
def Complex.reset {A B : Type} (c : Complex A B) : Complex A B :=
  { first := ResettableWrapper.reset c.first, second := ResettableWrapper.reset c.second }

/-! ### Basic lemmas about single operations -/

theorem writeWith_stash {T : Type} (f : T → T) (w : ResettableWrapper T) :
    (writeWith f w).stash = if w.stash.isNone then some w.inner else w.stash := by
  cases h : w.stash <;> simp [writeWith, deref_mut, h]

theorem writeWith_stash_of_none {T : Type} (f : T → T) (w : ResettableWrapper T)
    (h : w.stash = none) : writeWith f w = { inner := f w.inner, stash := some w.inner } := by
  simp [writeWith, deref_mut, h]

theorem writeWith_stash_of_some {T : Type} (f : T → T) (w : ResettableWrapper T) (u : T)
    (h : w.stash = some u) : writeWith f w = { inner := f w.inner, stash := some u } := by
  simp [writeWith, deref_mut, h]

theorem writeWith_stash_isSome {T : Type} (f : T → T) (w : ResettableWrapper T) :
    (writeWith f w).stash.isSome := by
  cases h : w.stash <;> simp [writeWith, deref_mut, h]

theorem reset_stash {T : Type} (w : ResettableWrapper T) :
    (ResettableWrapper.reset w).stash = none := rfl

theorem runOps_append {T : Type} (w : ResettableWrapper T) (l₁ l₂ : List (Op T)) :
    runOps w (l₁ ++ l₂) = runOps (runOps w l₁) l₂ := by
  simp [runOps, List.foldl_append]

theorem runOps_append_single {T : Type} (w : ResettableWrapper T) (l : List (Op T)) (op : Op T) :
    runOps w (l ++ [op]) = step (runOps w l) op := by
  simp [runOps_append, runOps]

theorem writeSinceReset_append_read {T : Type} (l : List (Op T)) :
    writeSinceReset (l ++ [Op.read]) = writeSinceReset l := by
  simp [writeSinceReset, writeSinceResetRev]

theorem writeSinceReset_append_write {T : Type} (l : List (Op T)) (f : T → T) :
    writeSinceReset (l ++ [Op.write f]) = true := by
  simp [writeSinceReset, writeSinceResetRev]

theorem writeSinceReset_append_reset {T : Type} (l : List (Op T)) :
    writeSinceReset (l ++ [Op.reset]) = false := by
  simp [writeSinceReset, writeSinceResetRev]

/-- Once the stash is set, a reset-free run never changes it. -/
theorem stash_some_preserved {T : Type} (ops : List (Op T)) :
    ∀ (w : ResettableWrapper T) (u : T), resetFree ops = true → w.stash = some u →
      (runOps w ops).stash = some u := by
  induction ops with
  | nil => intro w u _ hw; simpa [runOps] using hw
  | cons op rest ih =>
    intro w u hrf hw
    cases op with
    | read =>
      have hrf' : resetFree rest = true := by
        simp only [resetFree, List.all_cons, Bool.and_eq_true] at hrf
        simpa [resetFree] using hrf.2
      exact ih w u hrf' hw
    | write f =>
      have hrf' : resetFree rest = true := by
        simp only [resetFree, List.all_cons, Bool.and_eq_true] at hrf
        simpa [resetFree] using hrf.2
      have : (writeWith f w).stash = some u := by
        rw [writeWith_stash_of_some f w u hw]
      exact ih _ u hrf' this
    | reset => simp [resetFree, isResetOp] at hrf

/-- The stash is empty exactly when no write happened since the last reset. -/
theorem stash_none_iff {T : Type} (v : T) (ops : List (Op T)) :
    (runOps (ResettableWrapper.new v) ops).stash = none ↔ writeSinceReset ops = false := by
  induction ops using List.reverseRecOn with
  | nil => simp [runOps, ResettableWrapper.new, writeSinceReset, writeSinceResetRev]
  | append_singleton l op ih =>
    cases op with
    | read => simpa [runOps_append_single, step, writeSinceReset_append_read] using ih
    | write f =>
      rw [runOps_append_single, writeSinceReset_append_write]
      have := writeWith_stash_isSome f (runOps (ResettableWrapper.new v) l)
      simp only [step]
      constructor
      · intro h; rw [h] at this; simp at this
      · intro h; simp at h
    | reset =>
      rw [runOps_append_single, writeSinceReset_append_reset]
      simp [step, reset_stash]

theorem reset_inner_of_some {T : Type} (w : ResettableWrapper T) (u : T)
    (h : w.stash = some u) : reset_inner w = u := by
  simp [reset_inner, h]

theorem applyMuts_cons {T : Type} (f : T → T) (rest : List (T → T)) (w : ResettableWrapper T) :
    applyMuts (f :: rest) w = applyMuts rest (writeWith f w) := rfl

theorem resetFree_map_write {T : Type} (ms : List (T → T)) :
    resetFree (ms.map Op.write) = true := by
  simp [resetFree, isResetOp]

/-- Total number of clones while applying mutations: one if the wrapper was
clean and at least one mutation runs, zero otherwise. -/
theorem runOpsC_muts_clones {T : Type} (ms : List (T → T)) :
    ∀ (w : ResettableWrapper T) (n : Nat),
      (runOpsC (w, n) (ms.map Op.write)).2
        = n + (if w.stash.isNone && !ms.isEmpty then 1 else 0) := by
  induction ms with
  | nil => intro w n; simp [runOpsC]
  | cons f rest ih =>
    intro w n
    have hstep : runOpsC (w, n) ((f :: rest).map Op.write)
        = runOpsC (writeWith f w, n + deref_mut_clones w) (rest.map Op.write) := rfl
    rw [hstep, ih]
    have hs : (writeWith f w).stash.isNone = false := by
      have := writeWith_stash_isSome f w
      cases h : (writeWith f w).stash <;> simp [h] at this ⊢
    rw [hs]
    cases h : w.stash <;> simp [deref_mut_clones, h]

theorem resetFree_append {T : Type} (l₁ l₂ : List (Op T)) :
    resetFree (l₁ ++ l₂) = (resetFree l₁ && resetFree l₂) := by
  simp [resetFree, List.all_append]

/-- A trace with a write since its last reset decomposes around the first
such write: nothing since the last reset before it is a write, and no reset
follows it. -/
theorem exists_first_write {T : Type} (ops : List (Op T))
    (h : writeSinceReset ops = true) :
    ∃ (pre : List (Op T)) (f : T → T) (post : List (Op T)),
      ops = pre ++ Op.write f :: post ∧ resetFree post = true ∧
      writeSinceReset pre = false := by
  induction ops using List.reverseRecOn with
  | nil => simp [writeSinceReset, writeSinceResetRev] at h
  | append_singleton l op ih =>
    cases op with
    | read =>
      rw [writeSinceReset_append_read] at h
      obtain ⟨pre, f, post, heq, hpost, hpre⟩ := ih h
      refine ⟨pre, f, post ++ [Op.read], by rw [heq]; simp, ?_, hpre⟩
      rw [resetFree_append, hpost]
      simp [resetFree, isResetOp]
    | write f =>
      by_cases hl : writeSinceReset l = true
      · obtain ⟨pre, g, post, heq, hpost, hpre⟩ := ih hl
        refine ⟨pre, g, post ++ [Op.write f], by rw [heq]; simp, ?_, hpre⟩
        rw [resetFree_append, hpost]
        simp [resetFree, isResetOp]
      · exact ⟨l, f, [], rfl, rfl, by simpa using hl⟩
    | reset =>
      rw [writeSinceReset_append_reset] at h
      simp at h

/-! ### Claim theorems -/

/-- C1: for every value v and every nonempty sequence of mutations applied
through mutable access to a wrapper built from v, `reset_inner` afterwards
returns v, the pre-mutation value. -/
theorem reset_inner_after_mutations {T : Type} (v : T) (ms : List (T → T))
    (h : ms ≠ []) :
    reset_inner (applyMuts ms (ResettableWrapper.new v)) = v := by
  cases ms with
  | nil => exact absurd rfl h
  | cons f rest =>
    rw [applyMuts_cons,
      writeWith_stash_of_none f (ResettableWrapper.new v) rfl]
    exact reset_inner_of_some _ v
      (stash_some_preserved (rest.map Op.write) _ v (resetFree_map_write rest) rfl)

/-- C1 witness: mutating 123 by +100 and resetting to checkpoint yields 123. -/
theorem reset_inner_after_mutations_witness :
    reset_inner (applyMuts [fun n => n + 100] (ResettableWrapper.new 123)) = 123 :=
  reset_inner_after_mutations 123 [fun n => n + 100] (List.cons_ne_nil _ _)

/-- C5: for every wrapper, `into_inner` after `reset` equals `reset_inner`
applied to the same original wrapper. -/
theorem reset_then_unwrap_eq_reset_inner {T : Type} (w : ResettableWrapper T) :
    into_inner (ResettableWrapper.reset w) = reset_inner w := rfl

/-- C4: reset produces a clean wrapper, a second reset is a no-op returning
an equal wrapper, and running two resets in a row performs no clone. -/
theorem reset_idempotent {T : Type} (w : ResettableWrapper T) :
    (ResettableWrapper.reset w).stash = none
  ∧ ResettableWrapper.reset (ResettableWrapper.reset w) = ResettableWrapper.reset w
  ∧ (runOpsC (w, 0) [Op.reset, Op.reset]).2 = 0 :=
  ⟨rfl, rfl, rfl⟩

/-- C8: reading a freshly constructed wrapper yields the value and changes
nothing, and an immediate reset returns a wrapper equal to the fresh one. -/
theorem construct_read_reset_noop {T : Type} (v : T) :
    deref (ResettableWrapper.new v) = v
  ∧ ResettableWrapper.reset (ResettableWrapper.new v) = ResettableWrapper.new v :=
  ⟨rfl, rfl⟩

/-- C7: serialization emits only the live value, deserialization always
builds a clean wrapper around the value, so a round trip yields a clean
wrapper with the original's live value. -/
theorem serialize_roundtrip_clean {T : Type} (w : ResettableWrapper T) :
    serializeW w = w.inner
  ∧ (∀ t : T, deserializeW t = ResettableWrapper.new t)
  ∧ deserializeW (serializeW w) = ResettableWrapper.new w.inner
  ∧ (deserializeW (serializeW w)).stash = none
  ∧ (deserializeW (serializeW w)).inner = w.inner :=
  ⟨rfl, fun _ => rfl, rfl, rfl, rfl⟩

/-- C6: in a composite of two resettable fields, mutating only the first
and resetting restores the first and leaves the second's value untouched;
mutating both and resetting restores both independently. -/
theorem composite_reset_restores_fields {A B : Type} (va : A) (vb : B)
    (f : A → A) (g : B → B) :
    (writeWith f (ResettableWrapper.new va)).inner = f va
  ∧ Complex.reset
      { first := writeWith f (ResettableWrapper.new va),
        second := ResettableWrapper.new vb }
      = { first := ResettableWrapper.new va, second := ResettableWrapper.new vb }
  ∧ Complex.reset
      { first := writeWith f (ResettableWrapper.new va),
        second := writeWith g (ResettableWrapper.new vb) }
      = { first := ResettableWrapper.new va, second := ResettableWrapper.new vb } :=
  ⟨rfl, rfl, rfl⟩

/-- C9: the derived equality compares both the live value and the stash, so
it coincides with structural equality and a dirty wrapper is never equal to
a clean one, even with the same live value. -/
theorem wrapper_eq_compares_both_fields {T : Type} [DecidableEq T]
    (a b : ResettableWrapper T) :
    (wrapperEq a b = true ↔ a.inner = b.inner ∧ a.stash = b.stash)
  ∧ (wrapperEq a b = true ↔ a = b)
  ∧ (a.inner = b.inner → a.stash.isSome → b.stash = none → wrapperEq a b = false) := by
  refine ⟨by simp [wrapperEq], ?_, ?_⟩
  · cases a; cases b; simp [wrapperEq, ResettableWrapper.mk.injEq]
  · intro h1 h2 h3
    cases hs : a.stash with
    | none => rw [hs] at h2; simp at h2
    | some u => simp [wrapperEq, h1, hs, h3]

/-- C9 witness: a dirty wrapper over 3 is not equal to a clean wrapper over 3. -/
theorem wrapper_eq_compares_both_fields_witness :
    wrapperEq ({ inner := 3, stash := some 5 } : ResettableWrapper Nat)
      { inner := 3, stash := none } = false :=
  (wrapper_eq_compares_both_fields _ _).2.2 rfl rfl rfl

/-- C10: Debug formatting depends only on the live value; the stash is not
observable through it. -/
theorem debug_depends_only_on_live {T : Type} (fmtT : T → String)
    (a b : ResettableWrapper T) (h : a.inner = b.inner) :
    debugFmt fmtT a = debugFmt fmtT b := by
  simp [debugFmt, h]

/-- C10 witness: a dirty and a clean wrapper over 3 format identically. -/
theorem debug_depends_only_on_live_witness :
    debugFmt (fun n : Nat => toString n) { inner := 3, stash := some 7 }
      = debugFmt (fun n : Nat => toString n) { inner := 3, stash := none } :=
  debug_depends_only_on_live _ _ _ rfl

/-- C3: once the stash is set further mutable accesses keep it unchanged,
a clean wrapper clones on the first access and a dirty one never does, and
k ≥ 2 mutable accesses in one dirty period clone exactly once. -/
theorem single_clone_per_dirty_period {T : Type} (v : T) (ms : List (T → T))
    (h : 2 ≤ ms.length) :
    clonesOfMuts ms (ResettableWrapper.new v) = 1
  ∧ (∀ (w : ResettableWrapper T) (u : T) (f : T → T),
      w.stash = some u → (writeWith f w).stash = some u)
  ∧ deref_mut_clones (ResettableWrapper.new v) = 1
  ∧ (∀ w : ResettableWrapper T, w.stash.isSome → deref_mut_clones w = 0) := by
  refine ⟨?_, ?_, rfl, ?_⟩
  · rw [clonesOfMuts, runOpsC_muts_clones]
    have : ms.isEmpty = false := by
      cases ms with
      | nil => simp at h
      | cons f rest => rfl
    simp [ResettableWrapper.new, this]
  · intro w u f hw
    rw [writeWith_stash_of_some f w u hw]
  · intro w hw
    cases hs : w.stash with
    | none => rw [hs] at hw; simp at hw
    | some u => simp [deref_mut_clones, hs]

/-- C2: for every trace of reads, writes and resets run from a fresh
wrapper, the stash is empty exactly when no write happened since the last
reset; whenever the trace has a first write since its last reset, the final
stash holds the live value just before that write; a write since the last
reset always admits such a first-write decomposition; and a single mutable
access stashes a clone of the live value exactly when the stash is empty. -/
theorem checkpoint_invariant_characterization {T : Type} (v : T) (ops : List (Op T)) :
    ((runOps (ResettableWrapper.new v) ops).stash = none ↔ writeSinceReset ops = false)
  ∧ (∀ (pre : List (Op T)) (f : T → T) (post : List (Op T)),
      ops = pre ++ Op.write f :: post → resetFree post = true →
      writeSinceReset pre = false →
      (runOps (ResettableWrapper.new v) ops).stash
        = some ((runOps (ResettableWrapper.new v) pre).inner))
  ∧ (writeSinceReset ops = true → ∃ (pre : List (Op T)) (f : T → T) (post : List (Op T)),
      ops = pre ++ Op.write f :: post ∧ resetFree post = true ∧
      writeSinceReset pre = false)
  ∧ (∀ (w : ResettableWrapper T) (f : T → T),
      (writeWith f w).stash = if w.stash.isNone then some w.inner else w.stash) := by
  refine ⟨stash_none_iff v ops, ?_, fun h => exists_first_write ops h,
    fun w f => writeWith_stash f w⟩
  intro pre f post heq hpost hpre
  subst heq
  rw [runOps_append]
  have hwp : (runOps (ResettableWrapper.new v) pre).stash = none :=
    (stash_none_iff v pre).mpr hpre
  have hstep : runOps (runOps (ResettableWrapper.new v) pre) (Op.write f :: post)
      = runOps (writeWith f (runOps (ResettableWrapper.new v) pre)) post := rfl
  rw [hstep, writeWith_stash_of_none f _ hwp]
  exact stash_some_preserved post _ _ hpost rfl

/-- C2 witness: after a read and two writes on a fresh wrapper over 5, the
stash holds 5, the live value at the first write. -/
theorem checkpoint_invariant_characterization_witness :
    (runOps (ResettableWrapper.new 5)
      [Op.read, Op.write (fun n => n + 1), Op.write (fun n => n * 2)]).stash = some 5 :=
  (checkpoint_invariant_characterization 5
      [Op.read, Op.write (fun n => n + 1), Op.write (fun n => n * 2)]).2.1
    [Op.read] (fun n => n + 1) [Op.write (fun n => n * 2)] rfl rfl rfl

/-- C3 witness: two mutations on a fresh wrapper clone exactly once. -/
theorem single_clone_per_dirty_period_witness :
    clonesOfMuts [fun n => n + 1, fun n => n * 2] (ResettableWrapper.new 0) = 1 :=
  (single_clone_per_dirty_period 0 [fun n => n + 1, fun n => n * 2] (by simp)).1

end Resettable
